import Mathlib

/-!
Verification of the behavioral-analytics aggregate cores
(sessionize, retention, window_funnel, sequence_match / sequence_count,
sequence_next_node, and the pattern parser / executor they share).

Every definition below is a shallow embedding of the corresponding Rust
function from the repository source; machine integers are modelled as
`Int` (i64) and `Nat` (usize / u32 bitmasks), vectors as `List`,
fallible functions as `Except` / `Option`.  Loops that the source bounds
by an explicit counter are modelled with that counter as structural
fuel; loops whose progress the source does not guarantee carry an
explicit fuel argument, with `none` meaning the source loop has not
terminated within that budget.
-/

/-! ## Event model (src/common/event.rs) -/

/-- Timestamped event with a u32 condition bitmask (src/common/event.rs). -/
structure Event where
  timestamp_us : Int
  conditions : Nat
deriving DecidableEq

/-- Maximum number of boolean conditions (MAX_EVENT_CONDITIONS). -/
def MAX_EVENT_CONDITIONS : Nat := 32

/-- Event::condition — bit test, false for indices at or beyond 32. -/
def Event.condition (e : Event) (idx : Nat) : Bool :=
  decide (idx < MAX_EVENT_CONDITIONS) && ((e.conditions >>> idx) &&& 1 != 0)

/-- Event::has_any_condition. -/
def Event.has_any_condition (e : Event) : Bool :=
  e.conditions != 0

/-- Boolean non-decreasing check over timestamps, the
`windows(2).all(...)` presorted test from sort_events. -/
def eventsNondecreasing : List Event → Bool
  | x :: y :: rest => decide (x.timestamp_us ≤ y.timestamp_us) && eventsNondecreasing (y :: rest)
  | _ => true

/-- sort_events: presorted fast path, otherwise an unstable sort keyed on
timestamp.  The unstable pdqsort is modelled by mergeSort on the
timestamp key (same multiset, sorted by timestamp; tie order is
unspecified in the source). -/
def sortEvents (l : List Event) : List Event :=
  if eventsNondecreasing l then l
  else l.mergeSort (fun a b => a.timestamp_us ≤ b.timestamp_us)

/-! ## Sessionize core (src/sessionize.rs, SessionizeBoundaryState) -/

/-- State of the revised sessionize aggregate
(SessionizeBoundaryState). -/
structure SessionizeBoundaryState where
  first_ts : Option Int
  last_ts : Option Int
  boundaries : Int
  threshold_us : Int
  current_row_null : Bool
deriving DecidableEq

/-- SessionizeBoundaryState::new — the zero-initialized empty state. -/
def SessionizeBoundaryState.new : SessionizeBoundaryState :=
  { first_ts := none, last_ts := none, boundaries := 0, threshold_us := 0,
    current_row_null := false }

/-- SessionizeBoundaryState::mark_null_row. -/
def SessionizeBoundaryState.mark_null_row (s : SessionizeBoundaryState) :
    SessionizeBoundaryState :=
  { s with current_row_null := true }

/-- SessionizeBoundaryState::update with a single non-NULL timestamp. -/
def SessionizeBoundaryState.update (s : SessionizeBoundaryState)
    (timestamp_us : Int) : SessionizeBoundaryState :=
  match s.last_ts with
  | none =>
    { s with current_row_null := false,
             first_ts := some timestamp_us, last_ts := some timestamp_us }
  | some prev =>
    { s with
      current_row_null := false
      boundaries :=
        if timestamp_us - prev > s.threshold_us then s.boundaries + 1
        else s.boundaries
      last_ts := if timestamp_us > prev then some timestamp_us else s.last_ts
      first_ts :=
        match s.first_ts with
        | some first =>
          if timestamp_us < first then some timestamp_us else s.first_ts
        | none => s.first_ts }

/-- SessionizeBoundaryState::combine — the O(1) segment merge. -/
def SessionizeBoundaryState.combine (s o : SessionizeBoundaryState) :
    SessionizeBoundaryState :=
  match s.first_ts, o.first_ts with
  | none, _ => o
  | some _, none => { s with current_row_null := o.current_row_null }
  | some _, some other_first =>
    { first_ts := s.first_ts
      last_ts := o.last_ts.or s.last_ts
      boundaries := s.boundaries + o.boundaries +
        (match s.last_ts with
         | none => 0
         | some self_last =>
           if other_first - self_last > s.threshold_us then 1 else 0)
      threshold_us := s.threshold_us
      current_row_null := o.current_row_null }

/-- SessionizeBoundaryState::finalize — boundaries + 1 when non-empty,
0 when empty. -/
def SessionizeBoundaryState.finalize (s : SessionizeBoundaryState) : Int :=
  match s.first_ts with
  | some _ => s.boundaries + 1
  | none => 0

/-- Host-side initial state for a group: zero-initialized state with the
threshold absorbed from the INTERVAL parameter. -/
def sessInit (threshold : Int) : SessionizeBoundaryState :=
  { SessionizeBoundaryState.new with threshold_us := threshold }

/-- State built from a sequence of update calls with a fixed threshold. -/
def sessBuild (threshold : Int) (l : List Int) : SessionizeBoundaryState :=
  l.foldl SessionizeBoundaryState.update (sessInit threshold)

/-- Invariant preserved by update: the threshold is fixed and first_ts /
last_ts are present together. -/
def SessInv (T : Int) (s : SessionizeBoundaryState) : Prop :=
  s.threshold_us = T ∧ (s.first_ts.isSome ↔ s.last_ts.isSome)

/-- States for which combine associativity is proved: empty, or carrying
threshold T with both endpoints present. -/
def SessOk (T : Int) (s : SessionizeBoundaryState) : Prop :=
  s.first_ts = none ∨
    (∃ f l, s.first_ts = some f ∧ s.last_ts = some l ∧ s.threshold_us = T)

/-- An operand admissible for the C1 claim: either the empty
zero-initialized state or a state built purely from updates under a
common threshold. -/
def SessSource (T : Int) (s : SessionizeBoundaryState) : Prop :=
  s = SessionizeBoundaryState.new ∨ ∃ l : List Int, s = sessBuild T l

lemma sessInv_update (T : Int) (s : SessionizeBoundaryState) (t : Int)
    (h : SessInv T s) : SessInv T (s.update t) := by
  obtain ⟨hT, hiff⟩ := h
  unfold SessionizeBoundaryState.update
  cases hl : s.last_ts with
  | none => exact ⟨hT, by simp⟩
  | some prev =>
    refine ⟨hT, ?_⟩
    have hf : s.first_ts.isSome := by
      rw [hiff, hl]; rfl
    obtain ⟨f, hfeq⟩ := Option.isSome_iff_exists.mp hf
    simp only [hfeq]
    constructor
    · intro _
      split <;> simp [hl]
    · intro _
      split <;> simp

lemma sessInv_foldl (T : Int) (l : List Int) :
    ∀ s : SessionizeBoundaryState, SessInv T s →
      SessInv T (l.foldl SessionizeBoundaryState.update s) := by
  induction l with
  | nil => intro s h; exact h
  | cons t r ih =>
    intro s h
    exact ih _ (sessInv_update T s t h)

lemma sessOk_of_inv (T : Int) (s : SessionizeBoundaryState)
    (h : SessInv T s) : SessOk T s := by
  obtain ⟨hT, hiff⟩ := h
  cases hf : s.first_ts with
  | none => exact Or.inl hf
  | some f =>
    have : s.last_ts.isSome := by rw [← hiff, hf]; rfl
    obtain ⟨lv, hl⟩ := Option.isSome_iff_exists.mp this
    exact Or.inr ⟨f, lv, hf, hl, hT⟩

lemma sessOk_of_source (T : Int) (s : SessionizeBoundaryState)
    (h : SessSource T s) : SessOk T s := by
  rcases h with h | ⟨l, h⟩
  · subst h; exact Or.inl rfl
  · subst h
    exact sessOk_of_inv T _ (sessInv_foldl T l (sessInit T) ⟨rfl, by simp [sessInit, SessionizeBoundaryState.new]⟩)

/-- Combine is associative on the nose for admissible states. -/
lemma sess_combine_assoc (T : Int) (a b c : SessionizeBoundaryState)
    (ha : SessOk T a) (hb : SessOk T b) (hc : SessOk T c) :
    (a.combine b).combine c = a.combine (b.combine c) := by
  rcases ha with ha | ⟨fa, la, hfa, hla, hTa⟩
  · simp [SessionizeBoundaryState.combine, ha]
  rcases hb with hb | ⟨fb, lb, hfb, hlb, hTb⟩
  · rcases hc with hc | ⟨fc, lc, hfc, hlc, hTc⟩
    · simp [SessionizeBoundaryState.combine, hb, hc, hfa]
    · simp [SessionizeBoundaryState.combine, hb, hfa, hfc]
  rcases hc with hc | ⟨fc, lc, hfc, hlc, hTc⟩
  · simp [SessionizeBoundaryState.combine, hc, hfa, hfb, hla]
  · simp only [SessionizeBoundaryState.combine, hfa, hfb, hfc, hla, hlb, hlc,
      Option.or, hTa, hTb, SessionizeBoundaryState.mk.injEq, true_and, and_true]
    ring

/-- C1: for operands that are either the empty zero-initialized state or
states built from updates under a common threshold, the two binary tree
shapes over three operands give equal finalize results (combine is
associative up to finalize equivalence). -/
theorem sessionize_combine_assoc_finalize (T : Int)
    (a b c : SessionizeBoundaryState)
    (ha : SessSource T a) (hb : SessSource T b) (hc : SessSource T c) :
    ((a.combine b).combine c).finalize = (a.combine (b.combine c)).finalize := by
  rw [sess_combine_assoc T a b c (sessOk_of_source T a ha)
    (sessOk_of_source T b hb) (sessOk_of_source T c hc)]

/-- Witness for C1 at concrete states, one operand being the empty
zero-initialized state. -/
theorem sessionize_combine_assoc_finalize_witness :
    SessSource 1000 (sessBuild 1000 [0, 2000]) ∧
    SessSource 1000 SessionizeBoundaryState.new ∧
    SessSource 1000 (sessBuild 1000 [5000]) ∧
    (((sessBuild 1000 [0, 2000]).combine SessionizeBoundaryState.new).combine
        (sessBuild 1000 [5000])).finalize =
      ((sessBuild 1000 [0, 2000]).combine
        (SessionizeBoundaryState.new.combine (sessBuild 1000 [5000]))).finalize :=
  ⟨Or.inr ⟨[0, 2000], rfl⟩, Or.inl rfl, Or.inr ⟨[5000], rfl⟩,
    sessionize_combine_assoc_finalize 1000 _ _ _
      (Or.inr ⟨[0, 2000], rfl⟩) (Or.inl rfl) (Or.inr ⟨[5000], rfl⟩)⟩

/-- Number of consecutive gaps strictly greater than the threshold in a
chain of timestamps (the spec notion of session boundaries). -/
def gapCount (T : Int) : List Int → Int
  | x :: y :: rest => (if y - x > T then 1 else 0) + gapCount T (y :: rest)
  | _ => 0

/-- Boolean non-decreasing check over raw timestamps. -/
def tsNondecreasing : List Int → Bool
  | x :: y :: rest => decide (x ≤ y) && tsNondecreasing (y :: rest)
  | _ => true

lemma sessFold_sorted (T : Int) : ∀ (l : List Int)
    (s : SessionizeBoundaryState) (p f : Int),
    s.last_ts = some p → s.first_ts = some f → f ≤ p → s.threshold_us = T →
    tsNondecreasing (p :: l) = true →
    (l.foldl SessionizeBoundaryState.update s).boundaries
        = s.boundaries + gapCount T (p :: l) ∧
      (l.foldl SessionizeBoundaryState.update s).first_ts = some f := by
  intro l
  induction l with
  | nil =>
    intro s p f hl hf _ _ _
    simp [gapCount, hf]
  | cons t r ih =>
    intro s p f hl hf hfp hT hsorted
    have hpt : p ≤ t := by
      simp only [tsNondecreasing, Bool.and_eq_true, decide_eq_true_eq] at hsorted
      exact hsorted.1
    have hrest : tsNondecreasing (t :: r) = true := by
      simp only [tsNondecreasing, Bool.and_eq_true] at hsorted
      exact hsorted.2
    have hstep : (s.update t).last_ts = some t ∧ (s.update t).first_ts = some f ∧
        (s.update t).threshold_us = T ∧
        (s.update t).boundaries = s.boundaries + (if t - p > T then 1 else 0) := by
      unfold SessionizeBoundaryState.update
      rw [hl]
      refine ⟨?_, ?_, hT, ?_⟩
      · by_cases h : t > p
        · simp [h]
        · have : t = p := le_antisymm (not_lt.mp h) hpt
          simp [h, hl, this]
      · rw [hf]
        have : ¬ t < f := not_lt.mpr (le_trans hfp hpt)
        simp [this, hf]
      · by_cases h : t - p > T <;> simp [hT, h]
    have := ih (s.update t) t f hstep.1 hstep.2.1 (le_trans hfp hpt)
      hstep.2.2.1 hrest
    refine ⟨?_, ?_⟩
    · rw [List.foldl_cons, this.1, hstep.2.2.2]
      show s.boundaries + (if t - p > T then 1 else 0) + gapCount T (t :: r)
          = s.boundaries + gapCount T (p :: t :: r)
      rw [gapCount]
      ring
    · rw [List.foldl_cons, this.2]

/-- C3: feeding a non-decreasing chain of timestamps to the state via
update with a fixed threshold, finalize equals 1 plus the number of
consecutive gaps strictly greater than the threshold (a gap exactly
equal to the threshold creates no boundary, since gapCount uses strict
inequality), and finalize of the empty chain is 0. -/
theorem sessionize_finalize_counts_gaps (T : Int) (l : List Int)
    (h : tsNondecreasing l = true) :
    (sessBuild T l).finalize = if l.isEmpty then 0 else 1 + gapCount T l := by
  cases l with
  | nil => rfl
  | cons x r =>
    have hinit : ((sessInit T).update x).last_ts = some x ∧
        ((sessInit T).update x).first_ts = some x ∧
        ((sessInit T).update x).threshold_us = T ∧
        ((sessInit T).update x).boundaries = 0 := by
      unfold SessionizeBoundaryState.update sessInit SessionizeBoundaryState.new
      simp
    have hmain := sessFold_sorted T r ((sessInit T).update x) x x
      hinit.1 hinit.2.1 le_rfl hinit.2.2.1 h
    show (r.foldl SessionizeBoundaryState.update ((sessInit T).update x)).finalize = _
    unfold SessionizeBoundaryState.finalize
    rw [hmain.2, hmain.1, hinit.2.2.2]
    simp [add_comm]

/-- Witness for C3: threshold 60 s over timestamps 0 s, 60 s, 150 s —
the first gap equals the threshold exactly (no boundary), the second
exceeds it, so finalize is 2. -/
theorem sessionize_finalize_counts_gaps_witness :
    tsNondecreasing [0, 60000000, 150000000] = true ∧
    (sessBuild 60000000 [0, 60000000, 150000000]).finalize =
      if ([0, 60000000, 150000000] : List Int).isEmpty then 0
      else 1 + gapCount 60000000 [0, 60000000, 150000000] :=
  ⟨by decide, sessionize_finalize_counts_gaps 60000000 _ (by decide)⟩

theorem sessBuild_finalize_example :
    (sessBuild 1800000000 [0, 600000000, 2000000000]).finalize = 1 := by
  decide

/-! ## Retention core (src/retention.rs) -/

/-- Maximum number of conditions supported by retention. -/
def MAX_CONDITIONS : Nat := 32

/-- State of the retention aggregate. -/
structure RetentionState where
  conditions_met : Nat
  num_conditions : Nat
deriving DecidableEq

/-- RetentionState::new. -/
def RetentionState.new : RetentionState :=
  { conditions_met := 0, num_conditions := 0 }

/-- Bit-OR accumulation loop of RetentionState::update. -/
def retentionOrBits : Nat → Nat → List Bool → Nat
  | acc, _, [] => acc
  | acc, i, b :: rest =>
    retentionOrBits (if b && decide (i < MAX_CONDITIONS) then acc ||| (1 <<< i) else acc)
      (i + 1) rest

/-- RetentionState::update with a row of condition values. -/
def RetentionState.update (s : RetentionState) (conditions : List Bool) :
    RetentionState :=
  { conditions_met := retentionOrBits s.conditions_met 0 conditions
    num_conditions := conditions.length }

/-- RetentionState::combine — bitwise OR, max of lengths. -/
def RetentionState.combine (s o : RetentionState) : RetentionState :=
  { conditions_met := s.conditions_met ||| o.conditions_met
    num_conditions := max s.num_conditions o.num_conditions }

/-- RetentionState::finalize — anchor rule applied per index. -/
def RetentionState.finalize (s : RetentionState) : List Bool :=
  (List.range s.num_conditions).map fun i =>
    if s.conditions_met &&& 1 = 0 then false
    else if i = 0 then true
    else if MAX_CONDITIONS ≤ i then false
    else decide (s.conditions_met &&& (1 <<< i) ≠ 0)

lemma nat_and_shift_ne_zero (n i : Nat) :
    ((n &&& (1 <<< i)) ≠ 0) ↔ n.testBit i = true := by
  rw [Nat.shiftLeft_eq, one_mul, Nat.and_two_pow]
  cases h : n.testBit i
  · simp
  · simp [(Nat.two_pow_pos i).ne']

/-- C6: finalize returns a list of length num_conditions; entries are all
false when bit 0 of conditions_met is unset; otherwise entry 0 is true,
entry i for 1 ≤ i < 32 equals bit i of conditions_met, and entries at
indices 32 and beyond are always false. -/
theorem retention_finalize_spec (s : RetentionState) (i : Nat)
    (hi : i < s.num_conditions) :
    s.finalize.length = s.num_conditions ∧
    s.finalize.getD i false =
      (if s.conditions_met.testBit 0 = false then false
       else if i = 0 then true
       else if 32 ≤ i then false
       else s.conditions_met.testBit i) := by
  constructor
  · simp [RetentionState.finalize]
  · have hdec : ∀ j : Nat, decide (s.conditions_met &&& (1 <<< j) ≠ 0)
        = s.conditions_met.testBit j := by
      intro j
      cases hb : s.conditions_met.testBit j
      · have hno : ¬ (s.conditions_met &&& (1 <<< j) ≠ 0) := by
          rw [nat_and_shift_ne_zero]; simp [hb]
        simp [hno]
      · have hyes : s.conditions_met &&& (1 <<< j) ≠ 0 :=
          (nat_and_shift_ne_zero _ _).mpr hb
        simp [hyes]
    have hanchor : (s.conditions_met &&& 1 = 0) ↔ s.conditions_met.testBit 0 = false := by
      have h := nat_and_shift_ne_zero s.conditions_met 0
      simp only [Nat.shiftLeft_zero] at h
      constructor
      · intro hz
        cases hb : s.conditions_met.testBit 0
        · rfl
        · exact absurd (h.mpr hb) (by simp [hz])
      · intro hb
        by_contra hz
        have ht := h.mp hz
        rw [ht] at hb
        exact Bool.noConfusion hb
    rw [RetentionState.finalize, List.getD_eq_getElem?_getD, List.getElem?_map,
      List.getElem?_range hi, Option.map_some', Option.getD_some]
    by_cases h0 : s.conditions_met.testBit 0 = false
    · rw [if_pos (hanchor.mpr h0), if_pos h0]
    · have hne : ¬ s.conditions_met &&& 1 = 0 := fun hz => h0 (hanchor.mp hz)
      rw [if_neg hne, if_neg h0]
      by_cases hi0 : i = 0
      · rw [if_pos hi0, if_pos hi0]
      · rw [if_neg hi0, if_neg hi0]
        by_cases h32 : 32 ≤ i
        · have h32m : MAX_CONDITIONS ≤ i := h32
          rw [if_pos h32m, if_pos h32]
        · have h32m : ¬ MAX_CONDITIONS ≤ i := h32
          rw [if_neg h32m, if_neg h32, hdec i]

/-- Witness for C6 at a concrete state. -/
theorem retention_finalize_spec_witness :
    2 < (RetentionState.new.update [true, false, true]).num_conditions ∧
    ((RetentionState.new.update [true, false, true]).finalize.length
        = (RetentionState.new.update [true, false, true]).num_conditions ∧
      (RetentionState.new.update [true, false, true]).finalize.getD 2 false =
        (if (RetentionState.new.update [true, false, true]).conditions_met.testBit 0 = false then false
         else if 2 = 0 then true
         else if 32 ≤ 2 then false
         else (RetentionState.new.update [true, false, true]).conditions_met.testBit 2)) :=
  ⟨by decide, retention_finalize_spec _ 2 (by decide)⟩

/-! ## Window-funnel core (src/window_funnel.rs) -/

/-- FunnelMode bitmask flags. -/
def FUNNEL_STRICT : Nat := 1

def FUNNEL_STRICT_ORDER : Nat := 2

def FUNNEL_STRICT_DEDUPLICATION : Nat := 4

def FUNNEL_STRICT_INCREASE : Nat := 8

def FUNNEL_STRICT_ONCE : Nat := 16

def FUNNEL_ALLOW_REENTRY : Nat := 32

/-- FunnelMode::has — flag containment test on the bitmask. -/
def funnelHas (mode flag : Nat) : Bool :=
  mode &&& flag == flag

/-- State of the window_funnel aggregate. -/
structure WindowFunnelState where
  events : List Event
  window_size_us : Int
  num_conditions : Nat
  mode : Nat
deriving DecidableEq

/-- WindowFunnelState::new. -/
def WindowFunnelState.new : WindowFunnelState :=
  { events := [], window_size_us := 0, num_conditions := 0, mode := 0 }

/-- WindowFunnelState::update — record num_conditions, keep the event
only when some condition is set. -/
def WindowFunnelState.update (s : WindowFunnelState) (e : Event)
    (num_conditions : Nat) : WindowFunnelState :=
  { s with num_conditions := num_conditions,
           events := if e.has_any_condition then s.events ++ [e] else s.events }

/-- WindowFunnelState::combine — concatenate events, max conditions,
first-set-wins window size and mode. -/
def WindowFunnelState.combine (s o : WindowFunnelState) : WindowFunnelState :=
  { events := s.events ++ o.events
    window_size_us := if s.window_size_us ≠ 0 then s.window_size_us else o.window_size_us
    num_conditions := max s.num_conditions o.num_conditions
    mode := if s.mode == 0 then o.mode else s.mode }

/-- Inner while of scan_funnel: advance current_step while the event
satisfies the next condition, stopping at num_conditions (none signals a
full match / return num_conditions) or after one step under STRICT_ONCE.
The fuel 33 is always sufficient because Event::condition is false for
indices at or beyond 32, so the loop body runs at most 32 times. -/
def advanceWhile (e : Event) (nc : Nat) (strictOnce : Bool) :
    Nat → Nat → Int → Option (Nat × Int)
  | 0, step, prev => some (step, prev)
  | fuel + 1, step, prev =>
    if e.condition step then
      if nc ≤ step + 1 then none
      else if strictOnce then some (step + 1, e.timestamp_us)
      else advanceWhile e nc strictOnce fuel (step + 1) e.timestamp_us
    else some (step, prev)

/-- Event loop of WindowFunnelState::scan_funnel over the events after
the entry index, carrying (current_step, prev_matched_ts). -/
def scanLoop (mode : Nat) (window : Int) (nc : Nat) (entryTs : Int) :
    List Event → Nat → Int → Nat
  | [], step, _ => step
  | e :: rest, step, prev =>
    if e.timestamp_us - entryTs > window then step
    else if funnelHas mode FUNNEL_ALLOW_REENTRY && decide (1 < step) && e.condition 0 then
      scanLoop mode window nc entryTs rest 1 e.timestamp_us
    else if funnelHas mode FUNNEL_STRICT && decide (0 < step) &&
        e.condition (step - 1) && !(e.condition step) then step
    else if funnelHas mode FUNNEL_STRICT_ORDER &&
        (List.range step).any (fun k => e.condition k) then step
    else if funnelHas mode FUNNEL_STRICT_DEDUPLICATION &&
        decide (e.timestamp_us = prev) && e.condition step then
      scanLoop mode window nc entryTs rest step prev
    else if funnelHas mode FUNNEL_STRICT_INCREASE && e.condition step &&
        decide (e.timestamp_us ≤ prev) then
      scanLoop mode window nc entryTs rest step prev
    else
      match advanceWhile e nc (funnelHas mode FUNNEL_STRICT_ONCE) 33 step prev with
      | none => nc
      | some (step2, prev2) => scanLoop mode window nc entryTs rest step2 prev2

/-- Outer loop of WindowFunnelState::finalize: for each entry event
(condition 0), run scan_funnel and track the maximum, breaking early at
num_conditions. -/
def funnelOuter (mode : Nat) (window : Int) (nc : Nat) :
    List Event → Nat → Nat
  | [], maxStep => maxStep
  | e :: rest, maxStep =>
    if e.condition 0 then
      let sc := scanLoop mode window nc e.timestamp_us rest 1 e.timestamp_us
      let m2 := max maxStep sc
      if m2 = nc then m2 else funnelOuter mode window nc rest m2
    else funnelOuter mode window nc rest maxStep

/-- WindowFunnelState::finalize. -/
def WindowFunnelState.finalize (s : WindowFunnelState) : Int :=
  if s.events.isEmpty ∨ s.num_conditions = 0 then 0
  else (funnelOuter s.mode s.window_size_us s.num_conditions
    (sortEvents s.events) 0 : Nat)

lemma advanceWhile_le (e : Event) (nc : Nat) (so : Bool) :
    ∀ (fuel step : Nat) (prev : Int) (s2 : Nat) (p2 : Int),
      step ≤ nc → advanceWhile e nc so fuel step prev = some (s2, p2) → s2 ≤ nc := by
  intro fuel
  induction fuel with
  | zero =>
    intro step prev s2 p2 hstep h
    simp only [advanceWhile, Option.some.injEq, Prod.mk.injEq] at h
    omega
  | succ n ih =>
    intro step prev s2 p2 hstep h
    simp only [advanceWhile] at h
    by_cases hc : e.condition step
    · rw [if_pos hc] at h
      by_cases hnc : nc ≤ step + 1
      · rw [if_pos hnc] at h
        exact absurd h (by simp)
      · rw [if_neg hnc] at h
        by_cases hso : so = true
        · rw [if_pos hso] at h
          simp only [Option.some.injEq, Prod.mk.injEq] at h
          omega
        · rw [if_neg hso] at h
          exact ih (step + 1) e.timestamp_us s2 p2 (by omega) h
    · rw [if_neg hc] at h
      simp only [Option.some.injEq, Prod.mk.injEq] at h
      omega

lemma scanLoop_le (mode : Nat) (window : Int) (nc : Nat) (entryTs : Int) :
    ∀ (l : List Event) (step : Nat) (prev : Int),
      step ≤ nc → scanLoop mode window nc entryTs l step prev ≤ nc := by
  intro l
  induction l with
  | nil => intro step prev h; exact h
  | cons e rest ih =>
    intro step prev hstep
    rw [scanLoop]
    split
    · exact hstep
    split
    · rename_i hcond
      simp only [Bool.and_eq_true, decide_eq_true_eq] at hcond
      obtain ⟨⟨_, hlt⟩, _⟩ := hcond
      exact ih 1 e.timestamp_us (by omega)
    split
    · exact hstep
    split
    · exact hstep
    split
    · exact ih step prev hstep
    split
    · exact ih step prev hstep
    split
    · exact le_rfl
    · rename_i step2 prev2 hadv
      exact ih step2 prev2 (advanceWhile_le e nc _ 33 step prev step2 prev2 hstep hadv)

lemma funnelOuter_le (mode : Nat) (window : Int) (nc : Nat) (hnc : 1 ≤ nc) :
    ∀ (l : List Event) (maxStep : Nat),
      maxStep ≤ nc → funnelOuter mode window nc l maxStep ≤ nc := by
  intro l
  induction l with
  | nil => intro maxStep h; exact h
  | cons e rest ih =>
    intro maxStep hmax
    rw [funnelOuter]
    split
    · have hsc : scanLoop mode window nc e.timestamp_us rest 1 e.timestamp_us ≤ nc :=
        scanLoop_le mode window nc e.timestamp_us rest 1 e.timestamp_us hnc
      dsimp only
      split
      · rename_i h2
        exact le_of_eq h2
      · exact ih _ (max_le hmax hsc)
    · exact ih maxStep hmax

/-- C4: for every WindowFunnelState (hence for every state reachable by
update and combine calls), finalize lies in the closed interval
[0, num_conditions]. -/
theorem window_funnel_finalize_bounds (s : WindowFunnelState) :
    0 ≤ s.finalize ∧ s.finalize ≤ (s.num_conditions : Int) := by
  unfold WindowFunnelState.finalize
  split
  · constructor
    · exact le_rfl
    · exact Int.natCast_nonneg _
  · rename_i h
    push_neg at h
    constructor
    · exact Int.natCast_nonneg _
    · have hb := funnelOuter_le s.mode s.window_size_us s.num_conditions
        (by omega) (sortEvents s.events) 0 (by omega)
      exact_mod_cast hb

/-! ## Pattern steps and time operators (src/pattern/parser.rs types) -/

/-- TimeOp — comparison operator of a time constraint. -/
inductive TimeOp where
  | gte
  | lte
  | gt
  | lt
  | eq
  | ne
deriving DecidableEq

/-- TimeOp::evaluate. -/
def TimeOp.evaluate (op : TimeOp) (elapsed_seconds threshold : Int) : Bool :=
  match op with
  | .gte => decide (elapsed_seconds ≥ threshold)
  | .lte => decide (elapsed_seconds ≤ threshold)
  | .gt => decide (elapsed_seconds > threshold)
  | .lt => decide (elapsed_seconds < threshold)
  | .eq => decide (elapsed_seconds = threshold)
  | .ne => decide (elapsed_seconds ≠ threshold)

/-- PatternStep — one step of a compiled pattern. -/
inductive PatternStep where
  | condition (idx : Nat)
  | anyEvents
  | oneEvent
  | timeConstraint (op : TimeOp) (threshold_seconds : Int)
deriving DecidableEq

/-- MICROS_PER_SECOND (src/common/timestamp.rs). -/
def MICROS_PER_SECOND : Int := 1000000

/-! ## Pattern executor (src/pattern/executor.rs) -/

/-- MAX_NFA_STATES — iteration cap of the NFA per starting position. -/
def MAX_NFA_STATES : Nat := 10000

/-- Result of execute_pattern. -/
structure MatchResult where
  matched : Bool
  count : Nat
deriving DecidableEq

/-- State of a single NFA thread. -/
structure NfaState where
  event_idx : Nat
  step_idx : Nat
  last_match_ts : Option Int
deriving DecidableEq

/-- Backtracking loop of try_match_from.  The stack head is the most
recently pushed state; the fuel counts the remaining loop iterations out
of MAX_NFA_STATES, and `none` at fuel 0 with a non-empty stack is the
iteration-cap overflow (the source returns no match there as well). -/
def tryLoop (steps : List PatternStep) (events : List Event) :
    List NfaState → Nat → Option Nat
  | _, 0 => none
  | stack, fuel + 1 =>
    match stack with
    | [] => none
    | state :: rest =>
      if steps.length ≤ state.step_idx then
        some (if 0 < state.event_idx then state.event_idx - 1 else 0)
      else if events.length ≤ state.event_idx then
        match steps.getD state.step_idx .oneEvent with
        | .anyEvents =>
          tryLoop steps events ({ state with step_idx := state.step_idx + 1 } :: rest) fuel
        | _ => tryLoop steps events rest fuel
      else
        let event := events.getD state.event_idx { timestamp_us := 0, conditions := 0 }
        match steps.getD state.step_idx .oneEvent with
        | .condition cond_idx =>
          if event.condition cond_idx then
            tryLoop steps events
              ({ event_idx := state.event_idx + 1, step_idx := state.step_idx + 1,
                 last_match_ts := some event.timestamp_us } :: rest) fuel
          else tryLoop steps events rest fuel
        | .anyEvents =>
          tryLoop steps events
            ({ state with step_idx := state.step_idx + 1 } ::
              { state with event_idx := state.event_idx + 1 } :: rest) fuel
        | .oneEvent =>
          tryLoop steps events
            ({ event_idx := state.event_idx + 1, step_idx := state.step_idx + 1,
               last_match_ts := some event.timestamp_us } :: rest) fuel
        | .timeConstraint op threshold_seconds =>
          match state.last_match_ts with
          | some prev_ts =>
            if op.evaluate ((event.timestamp_us - prev_ts).tdiv MICROS_PER_SECOND)
                threshold_seconds then
              tryLoop steps events
                ({ state with step_idx := state.step_idx + 1 } :: rest) fuel
            else tryLoop steps events rest fuel
          | none =>
            tryLoop steps events
              ({ state with step_idx := state.step_idx + 1 } :: rest) fuel

/-- try_match_from — run the NFA from one starting event index. -/
def tryMatchFrom (steps : List PatternStep) (events : List Event)
    (start : Nat) : Option Nat :=
  tryLoop steps events [{ event_idx := start, step_idx := 0, last_match_ts := none }]
    MAX_NFA_STATES

/-- Outer search loop of execute_pattern_nfa, with explicit fuel on the
number of loop iterations; `none` means the source loop has not finished
within that budget (the loop only re-runs with search_start advanced by
try_match_from, which the source does not force to make progress). -/
def nfaLoop (steps : List PatternStep) (events : List Event)
    (countAll : Bool) : Nat → Nat → Nat → Option MatchResult
  | fuel, start, total =>
    if events.length ≤ start then some { matched := 0 < total, count := total }
    else
      match fuel with
      | 0 => none
      | fuel + 1 =>
        match tryMatchFrom steps events start with
        | some matchEnd =>
          if countAll then nfaLoop steps events countAll fuel (matchEnd + 1) (total + 1)
          else some { matched := true, count := 1 }
        | none => nfaLoop steps events countAll fuel (start + 1) total

/-- PatternShape — classification of a compiled pattern. -/
inductive PatternShape where
  | adjacentConditions (conds : List Nat)
  | wildcardSeparated (conds : List Nat)
  | complex
deriving DecidableEq

/-- Loop of classify_pattern, accumulating condition indices and the
has_any_events / has_only_conditions flags. -/
def classifyGo : List PatternStep → List Nat → Bool → Bool → PatternShape
  | [], conds, hasAny, onlyConds =>
    if conds.isEmpty then .complex
    else if onlyConds then .adjacentConditions conds
    else if hasAny then .wildcardSeparated conds
    else .complex
  | step :: rest, conds, hasAny, onlyConds =>
    match step with
    | .condition i => classifyGo rest (conds ++ [i]) hasAny onlyConds
    | .anyEvents => classifyGo rest conds true false
    | .oneEvent => .complex
    | .timeConstraint _ _ => .complex

/-- classify_pattern. -/
def classifyPattern (steps : List PatternStep) : PatternShape :=
  classifyGo steps [] false true

/-- Window check of fast_adjacent: k consecutive events satisfy the k
condition indices. -/
def windowMatches : List Event → List Nat → Bool
  | _, [] => true
  | [], _ :: _ => false
  | e :: es, c :: cs => e.condition c && windowMatches es cs

/-- Main loop of fast_adjacent over suffixes of the event list.  The
fuel is an iteration budget; fast_adjacent passes events.length + 1,
which suffices because every iteration drops at least one event (the
condition list coming from classify_pattern is never empty; on an empty
condition list the source loop would never terminate). -/
def faLoop (conds : List Nat) (countAll : Bool) :
    Nat → List Event → Nat → MatchResult
  | 0, _, total => { matched := 0 < total, count := total }
  | fuel + 1, evs, total =>
    if conds.length ≤ evs.length then
      if windowMatches evs conds then
        if countAll then faLoop conds countAll fuel (evs.drop conds.length) (total + 1)
        else { matched := true, count := 1 }
      else faLoop conds countAll fuel evs.tail total
    else { matched := 0 < total, count := total }

/-- fast_adjacent. -/
def fastAdjacent (events : List Event) (conds : List Nat)
    (countAll : Bool) : MatchResult :=
  if events.length < conds.length then { matched := false, count := 0 }
  else faLoop conds countAll (events.length + 1) events 0

/-- Loop of fast_wildcard: single pass with a step counter, reset on
completion for non-overlapping counting. -/
def fwLoop (conds : List Nat) (k : Nat) (countAll : Bool) :
    List Event → Nat → Nat → MatchResult
  | [], _, total => { matched := 0 < total, count := total }
  | e :: rest, step, total =>
    if e.condition (conds.getD step 0) then
      if k ≤ step + 1 then
        if countAll then fwLoop conds k countAll rest 0 (total + 1)
        else { matched := true, count := 1 }
      else fwLoop conds k countAll rest (step + 1) total
    else fwLoop conds k countAll rest step total

/-- fast_wildcard. -/
def fastWildcard (events : List Event) (conds : List Nat)
    (countAll : Bool) : MatchResult :=
  fwLoop conds conds.length countAll events 0 0

/-- execute_pattern: empty checks, fast-path dispatch via
classify_pattern, NFA fallback.  The NFA branch returns `none` when the
outer search loop does not terminate within events.length + 1
iterations, which can only happen when the loop repeats a starting
position forever (a terminating run advances search_start at every
iteration and so finishes within that budget). -/
def executePattern (steps : List PatternStep) (events : List Event)
    (countAll : Bool) : Option MatchResult :=
  if events.isEmpty ∨ steps.isEmpty then some { matched := false, count := 0 }
  else
    match classifyPattern steps with
    | .adjacentConditions conds => some (fastAdjacent events conds countAll)
    | .wildcardSeparated conds => some (fastWildcard events conds countAll)
    | .complex => nfaLoop steps events countAll (events.length + 1) 0 0

/-- Pattern ".*" — a single AnyEvents step (classified complex). -/
def starSteps : List PatternStep := [.anyEvents]

/-- Two events with condition 0 set. -/
def starEvents : List Event :=
  [{ timestamp_us := 0, conditions := 1 }, { timestamp_us := 1, conditions := 1 }]

lemma nfaLoop_star_stuck :
    ∀ fuel total, nfaLoop starSteps starEvents true fuel 1 total = none := by
  intro fuel
  induction fuel with
  | zero =>
    intro total
    rw [nfaLoop]
    norm_num [starEvents]
  | succ n ih =>
    intro total
    rw [nfaLoop]
    have h1 : tryMatchFrom starSteps starEvents 1 = some 0 := by decide
    norm_num [starEvents, h1]
    exact ih (total + 1)

/-- C2 is refuted: on the pattern ".*" (a zero-event-width match) with
two events and count_all = true, the outer search loop of
execute_pattern_nfa never advances past starting position 1 — it
returns match_end = 0 and sets search_start back to 1 — so the call
does not complete for any iteration budget. -/
theorem nfa_count_loop_diverges (fuel total : Nat) :
    nfaLoop starSteps starEvents true fuel 1 total = none ∧
    executePattern starSteps starEvents true = none := by
  refine ⟨nfaLoop_star_stuck fuel total, ?_⟩
  have hc : classifyPattern starSteps = .complex := by decide
  rw [executePattern]
  norm_num [starEvents, starSteps]
  rw [show classifyPattern [PatternStep.anyEvents] = .complex from hc]
  rw [nfaLoop]
  have h0 : tryMatchFrom [PatternStep.anyEvents]
      [{ timestamp_us := 0, conditions := 1 }, { timestamp_us := 1, conditions := 1 }] 0
      = some 0 := by decide
  norm_num [h0]
  exact nfaLoop_star_stuck 2 1

/-- C7: at a TimeConstraint(op, T) step the NFA consumes no event: the
successor state keeps event_idx and last_match_ts and only advances
step_idx.  With no previous match timestamp the constraint is vacuously
true; otherwise the state advances exactly when op holds of
elapsed_seconds = (current event timestamp - last_match_ts) tdiv
1000000 (truncating division, thresholds in seconds, timestamps in
microseconds), and dies otherwise. -/
theorem nfa_time_constraint_semantics (steps : List PatternStep)
    (events : List Event) (op : TimeOp) (thr : Int) (s : NfaState)
    (rest : List NfaState) (fuel : Nat)
    (hstep : steps[s.step_idx]? = some (.timeConstraint op thr))
    (hev : s.event_idx < events.length) :
    tryLoop steps events (s :: rest) (fuel + 1) =
      match s.last_match_ts with
      | none =>
        tryLoop steps events ({ s with step_idx := s.step_idx + 1 } :: rest) fuel
      | some prev =>
        if op.evaluate
            (((events.getD s.event_idx { timestamp_us := 0, conditions := 0 }).timestamp_us
                - prev).tdiv MICROS_PER_SECOND) thr then
          tryLoop steps events ({ s with step_idx := s.step_idx + 1 } :: rest) fuel
        else tryLoop steps events rest fuel := by
  have hlt : s.step_idx < steps.length := by
    by_contra h
    rw [List.getElem?_eq_none (by omega)] at hstep
    exact Option.noConfusion hstep
  have hg : steps.getD s.step_idx .oneEvent = .timeConstraint op thr := by
    rw [List.getD_eq_getElem?_getD, hstep]
    rfl
  rw [tryLoop]
  rw [if_neg (not_le.mpr hlt), if_neg (not_le.mpr hev)]
  dsimp only
  rw [hg]
  cases s.last_match_ts with
  | none => rfl
  | some prev => rfl

/-- Concrete pattern for the C7 witness: a single time constraint. -/
def tcSteps : List PatternStep := [.timeConstraint .gte 2]

/-- Concrete events for the C7 witness (3 seconds apart). -/
def tcEvents : List Event :=
  [{ timestamp_us := 0, conditions := 1 }, { timestamp_us := 3000000, conditions := 1 }]

/-- Witness for C7 at a concrete NFA state with a previous match
timestamp. -/
theorem nfa_time_constraint_semantics_witness :
    tcSteps[(0 : Nat)]? = some (.timeConstraint .gte 2) ∧
    (1 : Nat) < tcEvents.length ∧
    tryLoop tcSteps tcEvents
        [{ event_idx := 1, step_idx := 0, last_match_ts := some 0 }] 8 =
      (if TimeOp.gte.evaluate
          (((tcEvents.getD 1 { timestamp_us := 0, conditions := 0 }).timestamp_us
              - 0).tdiv MICROS_PER_SECOND) 2 then
        tryLoop tcSteps tcEvents
          [{ event_idx := 1, step_idx := 1, last_match_ts := some 0 }] 7
      else tryLoop tcSteps tcEvents [] 7) :=
  ⟨by decide, by decide,
    nfa_time_constraint_semantics tcSteps tcEvents TimeOp.gte 2
      { event_idx := 1, step_idx := 0, last_match_ts := some 0 } [] 7
      (by decide) (by decide)⟩

/-- Pattern "(?1)(?2).*" — two adjacent conditions followed by a
wildcard; classify_pattern routes it to the wildcard fast path. -/
def mixSteps : List PatternStep := [.condition 0, .condition 1, .anyEvents]

/-- Events: condition 0, then condition 5, then condition 1 — the two
required conditions are NOT adjacent, so the NFA rejects while the
wildcard fast path (which ignores adjacency) accepts. -/
def mixEvents : List Event :=
  [{ timestamp_us := 0, conditions := 1 },
   { timestamp_us := 10, conditions := 32 },
   { timestamp_us := 20, conditions := 2 }]

/-- C5 is refuted: on the fast-path pattern "(?1)(?2).*" (a mix of
Condition and AnyEvents steps, routed to fast_wildcard by
classify_pattern) and a sorted event stream, execute_pattern reports a
match while the NFA engine reports none, for both count_all settings —
contradicting the executor documentation that the fast paths produce
identical results to the NFA. -/
theorem fast_path_nfa_mismatch :
    classifyPattern mixSteps = .wildcardSeparated [0, 1] ∧
    eventsNondecreasing mixEvents = true ∧
    executePattern mixSteps mixEvents false = some { matched := true, count := 1 } ∧
    executePattern mixSteps mixEvents true = some { matched := true, count := 1 } ∧
    nfaLoop mixSteps mixEvents false (mixEvents.length + 1) 0 0
      = some { matched := false, count := 0 } ∧
    nfaLoop mixSteps mixEvents true (mixEvents.length + 1) 0 0
      = some { matched := false, count := 0 } := by
  refine ⟨by decide, by decide, by decide, by decide, by decide, by decide⟩

/-! ## Pattern parser (src/pattern/parser.rs) -/

/-- Position-tagged pattern error. -/
structure PatternError where
  message : String
  position : Nat
deriving DecidableEq

/-- ASCII whitespace (u8::is_ascii_whitespace): space, tab, newline,
form feed, carriage return. -/
def isWsChar (c : Char) : Bool :=
  c == ' ' || c == '\t' || c == '\n' || c == '\x0C' || c == '\r'

/-- Digit accumulation loop of Parser::parse_number.  The running value
is exact as a Nat; the source errors out (checked_mul / checked_add) as
soon as the accumulated value would reach 2^64, the usize overflow
bound.  Arguments: remaining input, current position, start position of
the number, accumulated value, digits consumed so far. -/
def parseNumGo : List Char → Nat → Nat → Nat → Nat →
    Except PatternError (Nat × List Char × Nat)
  | c :: cs, pos, start, num, digits =>
    if c.isDigit then
      if num * 10 + (c.toNat - 48) < 2 ^ 64 then
        parseNumGo cs (pos + 1) start (num * 10 + (c.toNat - 48)) (digits + 1)
      else .error { message := "number overflow in pattern", position := start }
    else if digits = 0 then .error { message := "expected number", position := pos }
    else .ok (num, c :: cs, pos)
  | [], pos, _, num, digits =>
    if digits = 0 then .error { message := "expected number", position := pos }
    else .ok (num, [], pos)

/-- Parser::parse_number. -/
def parseNumber (rest : List Char) (pos : Nat) :
    Except PatternError (Nat × List Char × Nat) :=
  parseNumGo rest pos pos 0 0

/-- Parser::expect. -/
def expectChar (c : Char) : List Char → Nat →
    Except PatternError (List Char × Nat)
  | x :: xs, pos =>
    if x = c then .ok (xs, pos + 1)
    else .error { message := "expected " ++ c.toString, position := pos }
  | [], pos =>
    .error { message := "expected " ++ c.toString ++ " got end of pattern",
             position := pos }

/-- Parser::parse_condition: number, closing paren, then the 1-indexed
check; Condition(num - 1) converts to the 0-indexed internal step. -/
def parseCondition (rest : List Char) (pos : Nat) :
    Except PatternError (PatternStep × List Char × Nat) :=
  match parseNumber rest pos with
  | .error e => .error e
  | .ok (num, r2, p2) =>
    match expectChar ')' r2 p2 with
    | .error e => .error e
    | .ok (r3, p3) =>
      if num = 0 then
        .error { message := "condition index must be at least 1", position := pos }
      else .ok (.condition (num - 1), r3, p3)

/-- Parser::parse_time_op — two-character lookahead, tried in the source
order. -/
def parseTimeOp : List Char → Nat → Except PatternError (TimeOp × List Char × Nat)
  | c1 :: rest1, pos =>
    if c1 = '>' && rest1.head? == some '=' then .ok (.gte, rest1.tail, pos + 2)
    else if c1 = '<' && rest1.head? == some '=' then .ok (.lte, rest1.tail, pos + 2)
    else if c1 = '=' && rest1.head? == some '=' then .ok (.eq, rest1.tail, pos + 2)
    else if c1 = '!' && rest1.head? == some '=' then .ok (.ne, rest1.tail, pos + 2)
    else if c1 = '>' then .ok (.gt, rest1, pos + 1)
    else if c1 = '<' then .ok (.lt, rest1, pos + 1)
    else .error { message := "expected comparison operator", position := pos }
  | [], pos => .error { message := "expected comparison operator", position := pos }

/-- Wrapping cast usize → i64, the `as i64` of parse_time_constraint. -/
def usizeAsI64 (n : Nat) : Int :=
  if n < 2 ^ 63 then (n : Int) else (n : Int) - 2 ^ 64

/-- Parser::parse_time_constraint. -/
def parseTimeConstraint (rest : List Char) (pos : Nat) :
    Except PatternError (PatternStep × List Char × Nat) :=
  match expectChar 't' rest pos with
  | .error e => .error e
  | .ok (r1, p1) =>
    match parseTimeOp r1 p1 with
    | .error e => .error e
    | .ok (op, r2, p2) =>
      match parseNumber r2 p2 with
      | .error e => .error e
      | .ok (num, r3, p3) =>
        match expectChar ')' r3 p3 with
        | .error e => .error e
        | .ok (r4, p4) => .ok (.timeConstraint op (usizeAsI64 num), r4, p4)

/-- Parser::parse_dot — AnyEvents for ".*", OneEvent for ".". -/
def parseDot (rest : List Char) (pos : Nat) :
    Except PatternError (PatternStep × List Char × Nat) :=
  match expectChar '.' rest pos with
  | .error e => .error e
  | .ok (r1, p1) =>
    match r1 with
    | '*' :: cs => .ok (.anyEvents, cs, p1 + 1)
    | _ => .ok (.oneEvent, r1, p1)

/-- Parser::parse_group — "(?": then a time constraint after a t, a
condition after a digit, otherwise an error. -/
def parseGroup (rest : List Char) (pos : Nat) :
    Except PatternError (PatternStep × List Char × Nat) :=
  match expectChar '(' rest pos with
  | .error e => .error e
  | .ok (r1, p1) =>
    match expectChar '?' r1 p1 with
    | .error e => .error e
    | .ok (r2, p2) =>
      match r2 with
      | c :: _ =>
        if c = 't' then parseTimeConstraint r2 p2
        else if c.isDigit then parseCondition r2 p2
        else .error { message := "expected digit or t after group open", position := p2 }
      | [] =>
        .error { message := "unexpected end of pattern after group open", position := p2 }

/-- Parser::parse_step. -/
def parseStep (rest : List Char) (pos : Nat) :
    Except PatternError (PatternStep × List Char × Nat) :=
  match rest with
  | [] => .error { message := "unexpected end of pattern", position := pos }
  | c :: cs =>
    if c = '(' then parseGroup (c :: cs) pos
    else if c = '.' then parseDot (c :: cs) pos
    else .error { message := "unexpected character", position := pos }

/-- Parser::skip_whitespace. -/
def skipWs : List Char → Nat → List Char × Nat
  | c :: cs, pos => if isWsChar c then skipWs cs (pos + 1) else (c :: cs, pos)
  | [], pos => ([], pos)

/-- Main loop of Parser::parse.  Each successful parse_step consumes at
least one character, so the fuel input.length + 1 passed by
parse_pattern is never exhausted; the fuel-0 error is unreachable. -/
def parseLoop : Nat → List Char → Nat → List PatternStep →
    Except PatternError (List PatternStep)
  | fuel, rest, pos, acc =>
    match skipWs rest pos with
    | ([], _) => .ok acc.reverse
    | (c :: cs, pos2) =>
      match fuel with
      | 0 => .error { message := "parser fuel exhausted", position := pos2 }
      | fuel + 1 =>
        match parseStep (c :: cs) pos2 with
        | .error e => .error e
        | .ok (st, rest2, pos3) => parseLoop fuel rest2 pos3 (st :: acc)

/-- parse_pattern over a character list. -/
def parsePattern (input : List Char) : Except PatternError (List PatternStep) :=
  match parseLoop (input.length + 1) input 0 [] with
  | .error e => .error e
  | .ok [] => .error { message := "empty pattern", position := 0 }
  | .ok steps => .ok steps

/-- parse_pattern over a String. -/
def parsePatternStr (s : String) : Except PatternError (List PatternStep) :=
  parsePattern s.toList


deriving instance DecidableEq for Except

/-- Value of a digit string folded onto an accumulator, the exact value
parse_number computes. -/
def digitsVal (num : Nat) (ds : List Char) : Nat :=
  ds.foldl (fun n c => n * 10 + (c.toNat - 48)) num

lemma digitsVal_ge (ds : List Char) : ∀ num : Nat, num ≤ digitsVal num ds := by
  induction ds with
  | nil => intro num; exact le_rfl
  | cons c cs ih =>
    intro num
    calc num ≤ num * 10 + (c.toNat - 48) := by omega
      _ ≤ digitsVal (num * 10 + (c.toNat - 48)) cs := ih _

lemma parseNumGo_spec (ds : List Char) : ∀ (rest : List Char)
    (pos start num digits : Nat),
    (∀ c ∈ ds, c.isDigit = true) →
    (∀ c, rest.head? = some c → c.isDigit = false) →
    digitsVal num ds < 2 ^ 64 →
    parseNumGo (ds ++ rest) pos start num digits =
      (if digits + ds.length = 0 then
        .error { message := "expected number", position := pos }
      else .ok (digitsVal num ds, rest, pos + ds.length)) := by
  induction ds with
  | nil =>
    intro rest pos start num digits _ hhead _
    cases rest with
    | nil => simp [parseNumGo, digitsVal]
    | cons c cs =>
      have hc : c.isDigit = false := hhead c rfl
      simp [parseNumGo, hc, digitsVal]
  | cons c cs ih =>
    intro rest pos start num digits hdig hhead hlt
    have hc : c.isDigit = true := hdig c (List.mem_cons_self c cs)
    have hval : digitsVal num (c :: cs) = digitsVal (num * 10 + (c.toNat - 48)) cs := rfl
    have hlt2 : num * 10 + (c.toNat - 48) < 2 ^ 64 :=
      lt_of_le_of_lt (digitsVal_ge cs _) (hval ▸ hlt)
    have := ih rest (pos + 1) start (num * 10 + (c.toNat - 48)) (digits + 1)
      (fun d hd => hdig d (List.mem_cons_of_mem c hd)) hhead (hval ▸ hlt)
    rw [List.cons_append, parseNumGo, if_pos hc, if_pos hlt2, this]
    have hne : ¬ (digits + 1 + cs.length = 0) := by omega
    have hne2 : ¬ (digits + (c :: cs).length = 0) := by
      simp only [List.length_cons]
      omega
    rw [if_neg hne, if_neg hne2, hval]
    have : pos + 1 + cs.length = pos + (c :: cs).length := by
      simp only [List.length_cons]
      omega
    rw [this]

lemma parseNumGo_overflow (ds : List Char) : ∀ (rest : List Char)
    (pos start num digits : Nat),
    (∀ c ∈ ds, c.isDigit = true) →
    num < 2 ^ 64 →
    2 ^ 64 ≤ digitsVal num ds →
    parseNumGo (ds ++ rest) pos start num digits =
      .error { message := "number overflow in pattern", position := start } := by
  induction ds with
  | nil =>
    intro rest pos start num digits _ hnum hov
    have : digitsVal num [] = num := rfl
    omega
  | cons c cs ih =>
    intro rest pos start num digits hdig hnum hov
    have hc : c.isDigit = true := hdig c (List.mem_cons_self c cs)
    have hval : digitsVal num (c :: cs) = digitsVal (num * 10 + (c.toNat - 48)) cs := rfl
    by_cases h2 : num * 10 + (c.toNat - 48) < 2 ^ 64
    · rw [List.cons_append, parseNumGo, if_pos hc, if_pos h2]
      exact ih rest (pos + 1) start _ (digits + 1)
        (fun d hd => hdig d (List.mem_cons_of_mem c hd)) h2 (hval ▸ hov)
    · rw [List.cons_append, parseNumGo, if_pos hc, if_neg h2]

lemma parseLoop_done (fuel : Nat) (rest : List Char) (pos pos2 : Nat)
    (acc : List PatternStep) (hskip : skipWs rest pos = ([], pos2)) :
    parseLoop fuel rest pos acc = .ok acc.reverse := by
  rw [parseLoop, hskip]

lemma parseLoop_succ (fuel : Nat) (rest : List Char) (c : Char)
    (cs : List Char) (pos pos2 : Nat) (acc : List PatternStep)
    (hskip : skipWs rest pos = (c :: cs, pos2)) :
    parseLoop (fuel + 1) rest pos acc =
      (match parseStep (c :: cs) pos2 with
       | .error e => .error e
       | .ok (st, rest2, pos3) => parseLoop fuel rest2 pos3 (st :: acc)) := by
  rw [parseLoop, hskip]

lemma parseGroup_condition (ds rest : List Char) (pos : Nat)
    (hne : ds ≠ []) (hdig : ∀ c ∈ ds, c.isDigit = true)
    (hlt : digitsVal 0 ds < 2 ^ 64) :
    parseGroup ('(' :: '?' :: (ds ++ ')' :: rest)) pos =
      (if digitsVal 0 ds = 0 then
        .error { message := "condition index must be at least 1", position := pos + 2 }
      else .ok (.condition (digitsVal 0 ds - 1), rest, pos + ds.length + 3)) := by
  obtain ⟨d, ds2, rfl⟩ : ∃ d ds2, ds = d :: ds2 := by
    cases ds with
    | nil => exact absurd rfl hne
    | cons d ds2 => exact ⟨d, ds2, rfl⟩
  have hd : d.isDigit = true := hdig d (List.mem_cons_self d ds2)
  have hdt : ¬ d = 't' := by
    intro h
    rw [h] at hd
    exact Bool.noConfusion hd
  unfold parseGroup
  simp only [expectChar, List.cons_append, if_pos, reduceIte]
  rw [if_neg hdt, if_pos hd]
  unfold parseCondition parseNumber
  rw [show d :: (ds2 ++ ')' :: rest) = (d :: ds2) ++ (')' :: rest) by simp]
  rw [parseNumGo_spec (d :: ds2) (')' :: rest) (pos + 2) (pos + 2) 0 0 hdig
    (by intro c hc; simp at hc; rw [← hc]; decide) hlt]
  rw [if_neg (by simp)]
  simp only [expectChar, reduceIte]
  by_cases hz : digitsVal 0 (d :: ds2) = 0
  · rw [if_pos hz, if_pos hz]
  · rw [if_neg hz, if_neg hz]
    have : pos + 2 + (d :: ds2).length + 1 = pos + (d :: ds2).length + 3 := by omega
    rw [this]

lemma skipWs_all (l : List Char) : ∀ pos : Nat,
    (∀ c ∈ l, isWsChar c = true) → skipWs l pos = ([], pos + l.length) := by
  induction l with
  | nil => intro pos _; simp [skipWs]
  | cons c cs ih =>
    intro pos h
    rw [skipWs, if_pos (h c (List.mem_cons_self c cs)),
      ih (pos + 1) (fun d hd => h d (List.mem_cons_of_mem c hd))]
    simp only [List.length_cons]
    congr 1
    omega

lemma parsePattern_ws_empty (input : List Char)
    (h : ∀ c ∈ input, isWsChar c = true) :
    parsePattern input = .error { message := "empty pattern", position := 0 } := by
  unfold parsePattern
  rw [parseLoop_done _ _ _ _ _ (skipWs_all input 0 h)]
  rfl

lemma parseGroup_unclosed (ds : List Char) (pos : Nat) (hne : ds ≠ [])
    (hdig : ∀ c ∈ ds, c.isDigit = true) (hlt : digitsVal 0 ds < 2 ^ 64) :
    parseGroup ('(' :: '?' :: ds) pos =
      .error { message := "expected " ++ ')'.toString ++ " got end of pattern",
               position := pos + 2 + ds.length } := by
  obtain ⟨d, ds2, rfl⟩ : ∃ d ds2, ds = d :: ds2 := by
    cases ds with
    | nil => exact absurd rfl hne
    | cons d ds2 => exact ⟨d, ds2, rfl⟩
  have hd : d.isDigit = true := hdig d (List.mem_cons_self d ds2)
  have hdt : ¬ d = 't' := by
    intro h
    rw [h] at hd
    exact Bool.noConfusion hd
  unfold parseGroup
  simp only [expectChar, reduceIte]
  rw [if_neg hdt, if_pos hd]
  unfold parseCondition parseNumber
  have hnum : parseNumGo (d :: ds2) (pos + 2) (pos + 2) 0 0 =
      .ok (digitsVal 0 (d :: ds2), [], pos + 2 + (d :: ds2).length) := by
    have hs := parseNumGo_spec (d :: ds2) [] (pos + 2) (pos + 2) 0 0 hdig
      (fun c hc => Option.noConfusion hc) hlt
    rw [List.append_nil] at hs
    rw [hs, if_neg (by simp)]
  rw [hnum]
  simp [expectChar]

lemma parseGroup_bad_op (c : Char) (rest : List Char) (pos : Nat)
    (h1 : c ≠ '>') (h2 : c ≠ '<') (h3 : c ≠ '=') (h4 : c ≠ '!') :
    parseGroup ('(' :: '?' :: 't' :: c :: rest) pos =
      .error { message := "expected comparison operator", position := pos + 3 } := by
  unfold parseGroup
  simp only [expectChar, reduceIte]
  unfold parseTimeConstraint
  simp only [expectChar, reduceIte]
  unfold parseTimeOp
  simp [h1, h2, h3, h4]

lemma parseLoop_skips_ws (fuel : Nat) (w : Char) (rest : List Char)
    (pos : Nat) (acc : List PatternStep) (hw : isWsChar w = true) :
    parseLoop fuel (w :: rest) pos acc = parseLoop fuel rest (pos + 1) acc := by
  have h : skipWs (w :: rest) pos = skipWs rest (pos + 1) := by
    rw [skipWs, if_pos hw]
  conv_lhs => rw [parseLoop]
  conv_rhs => rw [parseLoop]
  rw [h]

lemma parseLoop_unexpected (fuel : Nat) (c : Char) (rest : List Char)
    (pos : Nat) (acc : List PatternStep)
    (hw : isWsChar c = false) (h1 : c ≠ '(') (h2 : c ≠ '.') :
    parseLoop (fuel + 1) (c :: rest) pos acc =
      .error { message := "unexpected character", position := pos } := by
  have hskip : skipWs (c :: rest) pos = (c :: rest, pos) := by
    rw [skipWs, if_neg (by simp [hw])]
  rw [parseLoop_succ fuel (c :: rest) c rest pos pos acc hskip]
  unfold parseStep
  dsimp only
  rw [if_neg h1, if_neg h2]
lemma parseGroup_overflow (ds rest : List Char) (pos : Nat)
    (hne : ds ≠ []) (hdig : ∀ c ∈ ds, c.isDigit = true)
    (hov : 2 ^ 64 ≤ digitsVal 0 ds) :
    parseGroup ('(' :: '?' :: (ds ++ rest)) pos =
      .error { message := "number overflow in pattern", position := pos + 2 } := by
  obtain ⟨d, ds2, rfl⟩ : ∃ d ds2, ds = d :: ds2 := by
    cases ds with
    | nil => exact absurd rfl hne
    | cons d ds2 => exact ⟨d, ds2, rfl⟩
  have hd : d.isDigit = true := hdig d (List.mem_cons_self d ds2)
  have hdt : ¬ d = 't' := by
    intro h
    rw [h] at hd
    exact Bool.noConfusion hd
  unfold parseGroup
  simp only [expectChar, List.cons_append, reduceIte]
  rw [if_neg hdt, if_pos hd]
  unfold parseCondition parseNumber
  rw [show d :: (ds2 ++ rest) = (d :: ds2) ++ rest from rfl]
  rw [parseNumGo_overflow (d :: ds2) rest (pos + 2) (pos + 2) 0 0 hdig
    (by norm_num) hov]

lemma parsePattern_condition (ds : List Char) (hne : ds ≠ [])
    (hdig : ∀ c ∈ ds, c.isDigit = true) (hpos : 0 < digitsVal 0 ds)
    (hlt : digitsVal 0 ds < 2 ^ 64) :
    parsePattern ('(' :: '?' :: (ds ++ [')'])) =
      .ok [.condition (digitsVal 0 ds - 1)] := by
  unfold parsePattern
  have hskip : skipWs ('(' :: '?' :: (ds ++ [')'])) 0
      = ('(' :: '?' :: (ds ++ [')']), 0) := by
    simp [skipWs, isWsChar]
  rw [parseLoop_succ (('(' :: '?' :: (ds ++ [')'])).length) _ _ _ 0 0 [] hskip]
  have hstep : parseStep ('(' :: '?' :: (ds ++ [')'])) 0
      = parseGroup ('(' :: '?' :: (ds ++ [')'])) 0 := by
    simp [parseStep]
  rw [hstep, parseGroup_condition ds [] 0 hne hdig hlt]
  rw [if_neg (by omega)]
  dsimp only
  have hdone : ∀ (fuel pos : Nat) (acc : List PatternStep),
      parseLoop fuel [] pos acc = .ok acc.reverse :=
    fun fuel pos acc => parseLoop_done fuel [] pos pos acc rfl
  rw [hdone]
  rfl

/-- C9: the parser skips whitespace between steps; a group "(?N)" with
digit string N maps to the 0-indexed step Condition(N - 1) with a
position-tagged error at the number when N = 0; an empty (or
whitespace-only) pattern, an overflowing N, an unclosed group, an
unknown time-constraint operator, and an unexpected byte each produce a
position-tagged error. -/
theorem parse_pattern_spec :
    (∀ (fuel : Nat) (w : Char) (rest : List Char) (pos : Nat)
        (acc : List PatternStep), isWsChar w = true →
      parseLoop fuel (w :: rest) pos acc = parseLoop fuel rest (pos + 1) acc) ∧
    (∀ (ds rest : List Char) (pos : Nat), ds ≠ [] →
        (∀ c ∈ ds, c.isDigit = true) → digitsVal 0 ds < 2 ^ 64 →
      parseGroup ('(' :: '?' :: (ds ++ ')' :: rest)) pos =
        (if digitsVal 0 ds = 0 then
          .error { message := "condition index must be at least 1", position := pos + 2 }
        else .ok (.condition (digitsVal 0 ds - 1), rest, pos + ds.length + 3))) ∧
    (∀ ds : List Char, ds ≠ [] → (∀ c ∈ ds, c.isDigit = true) →
        0 < digitsVal 0 ds → digitsVal 0 ds < 2 ^ 64 →
      parsePattern ('(' :: '?' :: (ds ++ [')'])) =
        .ok [.condition (digitsVal 0 ds - 1)]) ∧
    (∀ input : List Char, (∀ c ∈ input, isWsChar c = true) →
      parsePattern input = .error { message := "empty pattern", position := 0 }) ∧
    (∀ (ds rest : List Char) (pos : Nat), ds ≠ [] →
        (∀ c ∈ ds, c.isDigit = true) → 2 ^ 64 ≤ digitsVal 0 ds →
      parseGroup ('(' :: '?' :: (ds ++ rest)) pos =
        .error { message := "number overflow in pattern", position := pos + 2 }) ∧
    (∀ (ds : List Char) (pos : Nat), ds ≠ [] →
        (∀ c ∈ ds, c.isDigit = true) → digitsVal 0 ds < 2 ^ 64 →
      parseGroup ('(' :: '?' :: ds) pos =
        .error { message := "expected " ++ ')'.toString ++ " got end of pattern",
                 position := pos + 2 + ds.length }) ∧
    (∀ (c : Char) (rest : List Char) (pos : Nat),
        c ≠ '>' → c ≠ '<' → c ≠ '=' → c ≠ '!' →
      parseGroup ('(' :: '?' :: 't' :: c :: rest) pos =
        .error { message := "expected comparison operator", position := pos + 3 }) ∧
    (∀ (fuel : Nat) (c : Char) (rest : List Char) (pos : Nat)
        (acc : List PatternStep), isWsChar c = false → c ≠ '(' → c ≠ '.' →
      parseLoop (fuel + 1) (c :: rest) pos acc =
        .error { message := "unexpected character", position := pos }) :=
  ⟨parseLoop_skips_ws,
   parseGroup_condition,
   parsePattern_condition,
   parsePattern_ws_empty,
   fun ds rest pos h1 h2 h3 => parseGroup_overflow ds rest pos h1 h2 h3,
   parseGroup_unclosed,
   parseGroup_bad_op,
   parseLoop_unexpected⟩

/-- Witness for C9: each conjunct applied at a concrete input —
whitespace before "(?1)", the pattern "(?12)" mapping to Condition(11),
a whitespace-only pattern, "(?" followed by twenty-one nines
(overflow), the unclosed "(?1", the unknown operator in "(?t%5)", and
the unexpected byte "x". -/
theorem parse_pattern_spec_witness :
    (parseLoop 9 (' ' :: ('(' :: '?' :: '1' :: ')' :: [])) 0 []
      = parseLoop 9 ('(' :: '?' :: '1' :: ')' :: []) 1 []) ∧
    (parseGroup ('(' :: '?' :: (['1', '2'] ++ ')' :: ['x'])) 0 =
      (if digitsVal 0 ['1', '2'] = 0 then
        .error { message := "condition index must be at least 1", position := 0 + 2 }
      else .ok (.condition (digitsVal 0 ['1', '2'] - 1), ['x'],
        0 + (['1', '2'] : List Char).length + 3))) ∧
    (parsePattern ('(' :: '?' :: ((['1', '2'] : List Char) ++ [')'])) =
      .ok [.condition (digitsVal 0 ['1', '2'] - 1)]) ∧
    (parsePattern [' ', ' '] = .error { message := "empty pattern", position := 0 }) ∧
    (parseGroup ('(' :: '?' :: (List.replicate 21 '9' ++ [')'])) 0 =
      .error { message := "number overflow in pattern", position := 0 + 2 }) ∧
    (parseGroup ('(' :: '?' :: ['1']) 0 =
      .error { message := "expected " ++ ')'.toString ++ " got end of pattern",
               position := 0 + 2 + (['1'] : List Char).length }) ∧
    (parseGroup ('(' :: '?' :: 't' :: '%' :: ['5', ')']) 0 =
      .error { message := "expected comparison operator", position := 0 + 3 }) ∧
    (parseLoop 3 ('x' :: "(?1)".toList) 5 [] =
      .error { message := "unexpected character", position := 5 }) :=
  ⟨parse_pattern_spec.1 9 ' ' _ 0 [] (by decide),
   parse_pattern_spec.2.1 ['1', '2'] ['x'] 0 (by decide) (by decide) (by decide),
   parse_pattern_spec.2.2.1 ['1', '2'] (by decide) (by decide) (by decide) (by decide),
   parse_pattern_spec.2.2.2.1 [' ', ' '] (by decide),
   parse_pattern_spec.2.2.2.2.1 (List.replicate 21 '9') [')'] 0 (by decide)
     (by decide) (by decide),
   parse_pattern_spec.2.2.2.2.2.1 ['1'] 0 (by decide) (by decide) (by decide),
   parse_pattern_spec.2.2.2.2.2.2.1 '%' ['5', ')'] 0 (by decide) (by decide)
     (by decide) (by decide),
   parse_pattern_spec.2.2.2.2.2.2.2 2 'x' "(?1)".toList 5 [] (by decide)
     (by decide) (by decide)⟩

/-! ## Sequence core (src/sequence.rs) -/

/-- State of sequence_match / sequence_count.  The cached
compiled_pattern field of the source is omitted: it is a memoization of
parse_pattern over pattern_str and never observable in results. -/
structure SequenceState where
  events : List Event
  pattern_str : Option String
deriving DecidableEq

/-- SequenceState::set_pattern — first write wins. -/
def SequenceState.set_pattern (s : SequenceState) (p : String) : SequenceState :=
  if s.pattern_str.isNone then { s with pattern_str := some p } else s

/-- SequenceState::update — keep the event only when some condition is
set. -/
def SequenceState.update (s : SequenceState) (e : Event) : SequenceState :=
  if e.has_any_condition then { s with events := s.events ++ [e] } else s

/-- SequenceState::combine. -/
def SequenceState.combine (s o : SequenceState) : SequenceState :=
  { events := s.events ++ o.events, pattern_str := s.pattern_str.or o.pattern_str }

/-- SequenceState::finalize_match — sort, parse (empty string when no
pattern was set), execute with count_all = false.  The inner Option is
none when the executor loop does not terminate. -/
def SequenceState.finalizeMatch (s : SequenceState) :
    Except PatternError (Option Bool) :=
  match parsePatternStr (s.pattern_str.getD "") with
  | .error e => .error e
  | .ok steps =>
    .ok ((executePattern steps (sortEvents s.events) false).map (fun r => r.matched))

/-- SequenceState::finalize_count — same pipeline with count_all =
true. -/
def SequenceState.finalizeCount (s : SequenceState) :
    Except PatternError (Option Nat) :=
  match parsePatternStr (s.pattern_str.getD "") with
  | .error e => .error e
  | .ok steps =>
    .ok ((executePattern steps (sortEvents s.events) true).map (fun r => r.count))

lemma faLoop_count_ge (conds : List Nat) : ∀ (fuel : Nat) (evs : List Event)
    (total : Nat), total ≤ (faLoop conds true fuel evs total).count := by
  intro fuel
  induction fuel with
  | zero => intro evs total; exact le_rfl
  | succ n ih =>
    intro evs total
    rw [faLoop]
    split
    · split
      · exact le_trans (Nat.le_succ total) (ih _ _)
      · exact ih _ _
    · exact le_rfl

lemma faLoop_relation (conds : List Nat) : ∀ (fuel : Nat) (evs : List Event),
    faLoop conds false fuel evs 0 =
      (if 0 < (faLoop conds true fuel evs 0).count then
        { matched := true, count := 1 }
      else { matched := false, count := 0 }) := by
  intro fuel
  induction fuel with
  | zero => simp [faLoop]
  | succ n ih =>
    intro evs
    rw [faLoop, faLoop]
    simp only [Bool.false_eq_true, if_false, eq_self_iff_true, if_true]
    split
    · split
      · have h1 : (0 + 1 : Nat) ≤ (faLoop conds true n (evs.drop conds.length) (0 + 1)).count :=
          faLoop_count_ge conds n _ (0 + 1)
        rw [if_pos (by omega)]
      · exact ih _
    · simp

lemma fwLoop_count_ge (conds : List Nat) (k : Nat) : ∀ (evs : List Event)
    (step total : Nat), total ≤ (fwLoop conds k true evs step total).count := by
  intro evs
  induction evs with
  | nil => intro step total; exact le_rfl
  | cons e rest ih =>
    intro step total
    rw [fwLoop]
    split
    · split
      · exact le_trans (Nat.le_succ total) (ih _ _)
      · exact ih _ _
    · exact ih _ _

lemma fwLoop_relation (conds : List Nat) (k : Nat) : ∀ (evs : List Event)
    (step : Nat),
    fwLoop conds k false evs step 0 =
      (if 0 < (fwLoop conds k true evs step 0).count then
        { matched := true, count := 1 }
      else { matched := false, count := 0 }) := by
  intro evs
  induction evs with
  | nil => simp [fwLoop]
  | cons e rest ih =>
    intro step
    rw [fwLoop, fwLoop]
    simp only [Bool.false_eq_true, if_false, eq_self_iff_true, if_true]
    split
    · split
      · have h1 : (0 + 1 : Nat) ≤ (fwLoop conds k true rest 0 (0 + 1)).count :=
          fwLoop_count_ge conds k rest 0 (0 + 1)
        rw [if_pos (by omega)]
      · exact ih _
    · exact ih _

lemma nfaLoop_count_ge (steps : List PatternStep) (events : List Event) :
    ∀ (fuel start total : Nat) (rc : MatchResult),
      nfaLoop steps events true fuel start total = some rc → total ≤ rc.count := by
  intro fuel
  induction fuel with
  | zero =>
    intro start total rc h
    rw [nfaLoop] at h
    split at h
    · simp only [Option.some.injEq] at h
      rw [← h]
    · exact Option.noConfusion h
  | succ n ih =>
    intro start total rc h
    rw [nfaLoop] at h
    split at h
    · simp only [Option.some.injEq] at h
      rw [← h]
    · cases htry : tryMatchFrom steps events start with
      | some m =>
        rw [htry] at h
        simp only [eq_self_iff_true, if_true] at h
        exact le_trans (Nat.le_succ total) (ih _ _ _ h)
      | none =>
        rw [htry] at h
        dsimp only at h
        exact ih _ _ _ h

lemma nfaLoop_relation (steps : List PatternStep) (events : List Event) :
    ∀ (fuel start : Nat) (rc : MatchResult),
      nfaLoop steps events true fuel start 0 = some rc →
      nfaLoop steps events false fuel start 0 =
        some (if 0 < rc.count then { matched := true, count := 1 }
              else { matched := false, count := 0 }) := by
  intro fuel
  induction fuel with
  | zero =>
    intro start rc h
    rw [nfaLoop] at h ⊢
    split at h
    · simp only [Option.some.injEq] at h
      rw [← h]
      rename_i hlen
      rw [if_pos hlen]
      simp
    · exact Option.noConfusion h
  | succ n ih =>
    intro start rc h
    rw [nfaLoop] at h ⊢
    split at h
    · simp only [Option.some.injEq] at h
      rw [← h]
      rename_i hlen
      rw [if_pos hlen]
      simp
    · rename_i hlen
      rw [if_neg hlen]
      cases htry : tryMatchFrom steps events start with
      | some m =>
        rw [htry] at h
        simp only [eq_self_iff_true, if_true] at h
        dsimp only
        simp only [Bool.false_eq_true, if_false]
        have hge : (0 + 1 : Nat) ≤ rc.count :=
          nfaLoop_count_ge steps events n (m + 1) (0 + 1) rc h
        rw [if_pos (by omega)]
      | none =>
        rw [htry] at h
        dsimp only at h
        dsimp only
        exact ih _ _ h

lemma executePattern_relation (steps : List PatternStep) (events : List Event)
    (rc : MatchResult) (hc : executePattern steps events true = some rc) :
    executePattern steps events false =
      some (if 0 < rc.count then { matched := true, count := 1 }
            else { matched := false, count := 0 }) := by
  unfold executePattern at hc ⊢
  by_cases hempty : events.isEmpty = true ∨ steps.isEmpty = true
  · rw [if_pos hempty] at hc ⊢
    simp only [Option.some.injEq] at hc
    rw [← hc]
    simp
  · rw [if_neg hempty] at hc ⊢
    cases hcl : classifyPattern steps with
    | adjacentConditions conds =>
      rw [hcl] at hc
      dsimp only at hc ⊢
      simp only [Option.some.injEq] at hc
      rw [← hc]
      unfold fastAdjacent
      by_cases hlen : events.length < conds.length
      · rw [if_pos hlen, if_pos hlen]
        simp
      · rw [if_neg hlen, if_neg hlen, faLoop_relation]
    | wildcardSeparated conds =>
      rw [hcl] at hc
      dsimp only at hc ⊢
      simp only [Option.some.injEq] at hc
      rw [← hc]
      unfold fastWildcard
      rw [fwLoop_relation]
    | complex =>
      rw [hcl] at hc
      dsimp only at hc ⊢
      exact nfaLoop_relation steps events _ 0 rc hc

/-- State with pattern ".*" and two kept events, on which finalize_match
returns true but the finalize_count loop never terminates. -/
def seqCountExample : SequenceState :=
  { events := [{ timestamp_us := 0, conditions := 1 },
               { timestamp_us := 1, conditions := 1 }],
    pattern_str := some ".*" }

/-- C8 as stated is refuted: a SequenceState with the valid pattern ".*"
whose finalize_match returns true while finalize_count returns no value
(its non-overlapping count loop repeats starting position 1 forever). -/
theorem sequence_match_count_counterexample :
    seqCountExample.finalizeMatch = .ok (some true) ∧
    seqCountExample.finalizeCount = .ok none := by
  constructor
  · decide
  · decide

/-- C8 amended: for every SequenceState with a valid pattern whose
finalize_count terminates with value c, finalize_match = true implies
1 ≤ c and finalize_match = false implies c = 0. -/
theorem sequence_match_count_consistent (s : SequenceState) (c : Nat)
    (hc : s.finalizeCount = .ok (some c)) :
    (s.finalizeMatch = .ok (some true) → 1 ≤ c) ∧
    (s.finalizeMatch = .ok (some false) → c = 0) := by
  unfold SequenceState.finalizeCount at hc
  unfold SequenceState.finalizeMatch
  cases hp : parsePatternStr (s.pattern_str.getD "") with
  | error e =>
    rw [hp] at hc
    exact Except.noConfusion hc
  | ok steps =>
    rw [hp] at hc
    simp only [Except.ok.injEq] at hc
    obtain ⟨rc, hrc, hcount⟩ := Option.map_eq_some'.mp hc
    have hrel := executePattern_relation steps (sortEvents s.events) rc hrc
    dsimp only
    rw [hrel]
    by_cases hpos : 0 < rc.count
    · rw [if_pos hpos]
      constructor
      · intro _
        omega
      · intro hfalse
        simp only [Option.map_some', Except.ok.injEq, Option.some.injEq] at hfalse
        exact absurd hfalse (by decide)
    · rw [if_neg hpos]
      constructor
      · intro htrue
        simp only [Option.map_some', Except.ok.injEq, Option.some.injEq] at htrue
        exact absurd htrue (by decide)
      · intro _
        omega

/-- Concrete state on which finalize_count terminates with value 1. -/
def seqWitnessState : SequenceState :=
  { events := [{ timestamp_us := 0, conditions := 1 },
               { timestamp_us := 1, conditions := 2 }],
    pattern_str := some "(?1)(?2)" }

/-- Witness for the amended C8 at a concrete terminating state. -/
theorem sequence_match_count_consistent_witness :
    seqWitnessState.finalizeCount = .ok (some 1) ∧
    ((seqWitnessState.finalizeMatch = .ok (some true) → 1 ≤ 1) ∧
     (seqWitnessState.finalizeMatch = .ok (some false) → 1 = 0)) :=
  ⟨by decide, sequence_match_count_consistent seqWitnessState 1 (by decide)⟩

/-! ## Next-node core (src/sequence_next_node.rs) -/

/-- Direction of traversal. -/
inductive NNDirection where
  | forward
  | backward
deriving DecidableEq

/-- Base position selection policy. -/
inductive NNBase where
  | head
  | tail
  | firstMatch
  | lastMatch
deriving DecidableEq

/-- Timestamped event with a string value (NextNodeEvent). -/
structure NextNodeEvent where
  timestamp_us : Int
  value : Option String
  base_condition : Bool
  conditions : Nat
deriving DecidableEq

/-- Placeholder event used only for out-of-range getD accesses that the
surrounding length checks rule out. -/
def nnDefault : NextNodeEvent :=
  { timestamp_us := 0, value := none, base_condition := false, conditions := 0 }

/-- State of the sequence_next_node aggregate. -/
structure SequenceNextNodeState where
  events : List NextNodeEvent
  direction : Option NNDirection
  base : Option NNBase
  num_steps : Nat
deriving DecidableEq

/-- Presorted check of SequenceNextNodeState::sort_events. -/
def nnNondecreasing : List NextNodeEvent → Bool
  | x :: y :: rest =>
    decide (x.timestamp_us ≤ y.timestamp_us) && nnNondecreasing (y :: rest)
  | _ => true

/-- SequenceNextNodeState::sort_events — presorted fast path, otherwise
unstable sort by timestamp (modelled by mergeSort on the key). -/
def sortNNEvents (l : List NextNodeEvent) : List NextNodeEvent :=
  if nnNondecreasing l then l
  else l.mergeSort (fun a b => a.timestamp_us ≤ b.timestamp_us)

/-- Forward scan loop of try_match_forward_from over the events after
the start position, carrying (pos, last_matched, step). -/
def nnScanForward (nsteps : Nat) : List NextNodeEvent → Nat → Nat → Nat → Nat × Nat
  | [], _, lm, st => (lm, st)
  | e :: rest, pos, lm, st =>
    if nsteps ≤ st then (lm, st)
    else if (e.conditions >>> st) &&& 1 ≠ 0 then
      nnScanForward nsteps rest (pos + 1) pos (st + 1)
    else nnScanForward nsteps rest (pos + 1) lm st

/-- SequenceNextNodeState::try_match_forward_from. -/
def tryMatchForwardFrom (evs : List NextNodeEvent) (nsteps start : Nat) :
    Option String :=
  if (evs.getD start nnDefault).conditions &&& 1 = 0 then none
  else
    let r := nnScanForward nsteps (evs.drop (start + 1)) (start + 1) start 1
    if r.2 = nsteps then
      if r.1 + 1 < evs.length then (evs.getD (r.1 + 1) nnDefault).value else none
    else none

/-- Backward scan loop of try_match_backward_from over the reversed
prefix before the start position, carrying (pos, earliest_matched,
step). -/
def nnScanBackward (nsteps : Nat) : List NextNodeEvent → Nat → Nat → Nat → Nat × Nat
  | [], _, em, st => (em, st)
  | e :: rest, pos, em, st =>
    if nsteps ≤ st then (em, st)
    else if (e.conditions >>> st) &&& 1 ≠ 0 then
      nnScanBackward nsteps rest (pos - 1) pos (st + 1)
    else nnScanBackward nsteps rest (pos - 1) em st

/-- SequenceNextNodeState::try_match_backward_from. -/
def tryMatchBackwardFrom (evs : List NextNodeEvent) (nsteps start : Nat) :
    Option String :=
  if (evs.getD start nnDefault).conditions &&& 1 = 0 then none
  else
    let r := nnScanBackward nsteps ((evs.take start).reverse) (start - 1) start 1
    if r.2 = nsteps then
      if 0 < r.1 then (evs.getD (r.1 - 1) nnDefault).value else none
    else none

/-- Index of the last event satisfying the base condition
(Iterator::rposition). -/
def nnRFindBase (evs : List NextNodeEvent) : Option Nat :=
  match evs.reverse.findIdx? (fun e => e.base_condition) with
  | none => none
  | some i => some (evs.length - 1 - i)

/-- FirstMatch scan over candidate start indices: first complete match
wins. -/
def nnFirstMatch (evs : List NextNodeEvent)
    (tryFrom : Nat → Option String) : List Nat → Option String
  | [] => none
  | start :: rest =>
    if (evs.getD start nnDefault).base_condition then
      match tryFrom start with
      | some v => some v
      | none => nnFirstMatch evs tryFrom rest
    else nnFirstMatch evs tryFrom rest

/-- LastMatch scan over candidate start indices: last complete match
wins. -/
def nnLastMatch (evs : List NextNodeEvent)
    (tryFrom : Nat → Option String) : List Nat → Option String → Option String
  | [], res => res
  | start :: rest, res =>
    if (evs.getD start nnDefault).base_condition then
      match tryFrom start with
      | some v => nnLastMatch evs tryFrom rest (some v)
      | none => nnLastMatch evs tryFrom rest res
    else nnLastMatch evs tryFrom rest res

/-- SequenceNextNodeState::match_forward. -/
def matchForward (evs : List NextNodeEvent) (nsteps : Nat) (base : NNBase) :
    Option String :=
  match base with
  | .head =>
    match evs.findIdx? (fun e => e.base_condition) with
    | none => none
    | some start => tryMatchForwardFrom evs nsteps start
  | .tail =>
    match nnRFindBase evs with
    | none => none
    | some start => tryMatchForwardFrom evs nsteps start
  | .firstMatch =>
    nnFirstMatch evs (tryMatchForwardFrom evs nsteps) (List.range evs.length)
  | .lastMatch =>
    nnLastMatch evs (tryMatchForwardFrom evs nsteps) (List.range evs.length) none

/-- SequenceNextNodeState::match_backward. -/
def matchBackward (evs : List NextNodeEvent) (nsteps : Nat) (base : NNBase) :
    Option String :=
  match base with
  | .tail =>
    match nnRFindBase evs with
    | none => none
    | some start => tryMatchBackwardFrom evs nsteps start
  | .head =>
    match evs.findIdx? (fun e => e.base_condition) with
    | none => none
    | some start => tryMatchBackwardFrom evs nsteps start
  | .firstMatch =>
    nnFirstMatch evs (tryMatchBackwardFrom evs nsteps) (List.range evs.length).reverse
  | .lastMatch =>
    nnLastMatch evs (tryMatchBackwardFrom evs nsteps) (List.range evs.length).reverse none

/-- SequenceNextNodeState::finalize. -/
def SequenceNextNodeState.finalize (s : SequenceNextNodeState) : Option String :=
  if s.events.isEmpty ∨ s.num_steps = 0 then none
  else
    match s.direction.getD .forward with
    | .forward => matchForward (sortNNEvents s.events) s.num_steps (s.base.getD .firstMatch)
    | .backward => matchBackward (sortNNEvents s.events) s.num_steps (s.base.getD .firstMatch)

lemma tryMatchForwardFrom_zero (evs : List NextNodeEvent) (start : Nat) :
    tryMatchForwardFrom evs 0 start = none := by
  unfold tryMatchForwardFrom
  split
  · rfl
  · have hscan : ∀ (l : List NextNodeEvent) (pos lm : Nat),
        nnScanForward 0 l pos lm 1 = (lm, 1) := by
      intro l pos lm
      cases l with
      | nil => rfl
      | cons e rest => rw [nnScanForward, if_pos (by omega)]
    rw [hscan]
    rfl

/-- C10: with direction Forward and base Head, finalize makes exactly
one forward-match attempt, from the leftmost event (in timestamp order)
whose base_condition holds; when that single attempt fails the result
is none, with no retry from any later base-condition event. -/
theorem next_node_forward_head (s : SequenceNextNodeState)
    (hdir : s.direction = some .forward) (hbase : s.base = some .head) :
    s.finalize =
      ((sortNNEvents s.events).findIdx? (fun e => e.base_condition)).bind
        (tryMatchForwardFrom (sortNNEvents s.events) s.num_steps) := by
  unfold SequenceNextNodeState.finalize
  rw [hdir, hbase]
  by_cases hguard : s.events.isEmpty = true ∨ s.num_steps = 0
  · rw [if_pos hguard]
    rcases hguard with hempty | hzero
    · have : s.events = [] := by
        cases h : s.events with
        | nil => rfl
        | cons a l => rw [h] at hempty; exact Bool.noConfusion hempty
      rw [this]
      rfl
    · rw [hzero]
      cases hf : (sortNNEvents s.events).findIdx? (fun e => e.base_condition) with
      | none => rfl
      | some start => simp [tryMatchForwardFrom_zero]
  · rw [if_neg hguard]
    dsimp only [Option.getD]
    unfold matchForward
    cases hf : (sortNNEvents s.events).findIdx? (fun e => e.base_condition) with
    | none => rfl
    | some start => rfl

/-- Concrete state for the C10 witness: the leftmost base-condition
event (index 0) fails the event1 check, while starting from index 1
would produce "D" — Head makes the single failing attempt and returns
none. -/
def nnExampleState : SequenceNextNodeState :=
  { events :=
      [{ timestamp_us := 0, value := some "A", base_condition := true, conditions := 0 },
       { timestamp_us := 1, value := some "B", base_condition := true, conditions := 1 },
       { timestamp_us := 2, value := some "C", base_condition := false, conditions := 2 },
       { timestamp_us := 3, value := some "D", base_condition := false, conditions := 0 }],
    direction := some .forward, base := some .head, num_steps := 2 }

/-- Witness for C10: finalize equals the single Head attempt, which
fails (none) even though a later base-condition event would match. -/
theorem next_node_forward_head_witness :
    nnExampleState.direction = some .forward ∧
    nnExampleState.base = some .head ∧
    nnExampleState.finalize =
      ((sortNNEvents nnExampleState.events).findIdx? (fun e => e.base_condition)).bind
        (tryMatchForwardFrom (sortNNEvents nnExampleState.events) nnExampleState.num_steps) ∧
    nnExampleState.finalize = none ∧
    tryMatchForwardFrom (sortNNEvents nnExampleState.events) 2 1 = some "D" :=
  ⟨rfl, rfl, next_node_forward_head nnExampleState rfl rfl, by decide, by decide⟩
